import Mathlib

/-!
Verification of the lambda-to-routerify bridge in src/main.rs.

The bridge translates an inbound AWS Lambda HTTP request into an outbound
hyper request aimed at a local routerify server, dispatches it over
loopback, and translates the response back.  Strings are modelled at the
byte level (lists of Nat below 256, the bytes of the UTF-8 encoding),
because the Rust code manipulates UTF-8 byte strings.  Stateful control
flow of the handler is modelled as an explicit event trace.
-/

namespace RouterifyBridge

/-- UTF-8 encoding of one Unicode code point as its list of bytes.  This is
the byte representation that Rust String and str values carry, and that
String.into_bytes on line 31 of src/main.rs exposes. -/
def utf8EncodeCharNat (c : Nat) : List Nat :=
  if c < 0x80 then [c]
  else if c < 0x800 then [0xC0 + c / 64, 0x80 + c % 64]
  else if c < 0x10000 then [0xE0 + c / 4096, 0x80 + c / 64 % 64, 0x80 + c % 64]
  else [0xF0 + c / 0x40000, 0x80 + c / 4096 % 64, 0x80 + c / 64 % 64, 0x80 + c % 64]

/-- UTF-8 bytes of a list of characters. -/
def utf8Bytes : List Char → List Nat
  | [] => []
  | c :: cs => utf8EncodeCharNat c.toNat ++ utf8Bytes cs

/-- The UTF-8 bytes of a Lean string, modelling the bytes of a Rust string. -/
def strBytes (s : String) : List Nat := utf8Bytes s.data

/-- The fixed listener address of the routerify server, line 14 of
src/main.rs: const SERVER_ADDR contains the literal 127.0.0.1:8080. -/
def SERVER_ADDR : String := "127.0.0.1:8080"

/-- Split a byte list at every occurrence of the byte sep, the groups in
order, separators dropped.  Used to model parsing a socket address at the
colon and parsing a query string at the ampersand. -/
def splitOnByte (sep : Nat) : List Nat → List (List Nat)
  | [] => [[]]
  | b :: rest =>
    let r := splitOnByte sep rest
    if b = sep then [] :: r
    else (b :: r.headD []) :: r.tail

/-- Decimal value of a list of ASCII digit bytes. -/
def natOfDigits (l : List Nat) : Nat := l.foldl (fun a d => 10 * a + (d - 0x30)) 0

/-- Host part of a host colon port socket-address string, modelling what
SocketAddr::from_str on line 117 of src/main.rs extracts as the IP. -/
def socketHost (s : String) : List Nat := (splitOnByte 0x3A (strBytes s)).headD []

/-- Port part of a host colon port socket-address string, modelling what
SocketAddr::from_str on line 117 of src/main.rs extracts as the port.
A bind request with port 0 asks the operating system to auto-assign an
ephemeral port; any nonzero port is a fixed-port bind request. -/
def socketPort (s : String) : Nat :=
  natOfDigits ((splitOnByte 0x3A (strBytes s)).getLastD [])

/-- The three body variants of the inbound lambda request, from the
lambda_http Body enum matched on lines 29 to 33 of src/main.rs. -/
inductive LambdaBody where
  | empty : LambdaBody
  | text : String → LambdaBody
  | binary : List Nat → LambdaBody

/-- Translation of the inbound body variant into the outbound hyper body,
lines 29 to 33 of src/main.rs: Empty becomes an empty body, Text becomes
the UTF-8 bytes of the string, Binary passes its bytes through. -/
def toHyperBody : LambdaBody → List Nat
  | LambdaBody.empty => []
  | LambdaBody.text t => strBytes t
  | LambdaBody.binary b => b

/-- Whether a byte stays unencoded under the form-urlencoded serializer of
the url crate (WHATWG application/x-www-form-urlencoded): ASCII digits,
ASCII letters, and the bytes for asterisk, hyphen, period, underscore. -/
def isFormSafe (b : Nat) : Bool :=
  decide ((0x30 ≤ b ∧ b ≤ 0x39) ∨ (0x41 ≤ b ∧ b ≤ 0x5A) ∨ (0x61 ≤ b ∧ b ≤ 0x7A) ∨
    b = 0x2A ∨ b = 0x2D ∨ b = 0x2E ∨ b = 0x5F)

/-- Uppercase hexadecimal digit byte for a value below 16. -/
def hexDigit (n : Nat) : Nat := if n < 10 then 0x30 + n else 0x41 + (n - 10)

/-- Form-urlencoded serialization of one byte: safe bytes unchanged, space
becomes plus, anything else becomes percent and two uppercase hex digits. -/
def encodeByte (b : Nat) : List Nat :=
  if isFormSafe b then [b]
  else if b = 0x20 then [0x2B]
  else [0x25, hexDigit (b / 16), hexDigit (b % 16)]

/-- Form-urlencoded serialization of a byte string. -/
def encodeBytes : List Nat → List Nat
  | [] => []
  | b :: bs => encodeByte b ++ encodeBytes bs

/-- One encoded key value pair joined by an equals sign, modelling
Serializer::append_pair on lines 47 to 50 of src/main.rs. -/
def append_pair (k v : List Nat) : List Nat := encodeBytes k ++ 0x3D :: encodeBytes v

/-- The encoded query string built by the while loop over the peekable
iterator on lines 45 to 56 of src/main.rs: each pair is serialized with
append_pair, and an ampersand is appended exactly when more pairs remain. -/
def encodeQuery : List (List Nat × List Nat) → List Nat
  | [] => []
  | (k, v) :: rest =>
    append_pair k v ++ (if rest.isEmpty then [] else 0x26 :: encodeQuery rest)

/-- The outbound URI built on lines 35 to 56 of src/main.rs: the scheme and
SERVER_ADDR are prefixed to the inbound path, and a question mark plus the
encoded query string are appended exactly when the query-parameter mapping
is nonempty. -/
def buildUri (path : List Nat) (query_params : List (List Nat × List Nat)) : List Nat :=
  strBytes ("http://" ++ SERVER_ADDR) ++ path ++
    (if query_params.isEmpty then [] else 0x3F :: encodeQuery query_params)

/-- The path component of a raw URI, modelling the path accessor used on
line 35 of src/main.rs: everything before the first question mark. -/
def uriPath : List Nat → List Nat
  | [] => []
  | b :: rest => if b = 0x3F then [] else b :: uriPath rest

/-- The full outbound URI from a raw inbound URI and the separately supplied
query-parameter mapping: only the path component of the inbound URI is used,
lines 26 to 56 of src/main.rs. -/
def outboundUri (raw : List Nat) (query_params : List (List Nat × List Nat)) : List Nat :=
  buildUri (uriPath raw) query_params

/-- The router state, struct State on lines 80 to 82 of src/main.rs.  The
count field is a u8, modelled as a Nat below 256. -/
structure State where
  count : Nat

/-- The handler for GET /data, function get_count on lines 87 to 91 of
src/main.rs: Response::new gives status 200 and the body is the text
Count followed by the decimal rendering of the state byte. -/
def get_count (s : State) : Nat × String := (200, "Count: " ++ toString s.count)

/-- The routing table built by router on lines 84 to 86 of src/main.rs: the
single registered route is GET /data to get_count; anything else falls to
the not-found default, modelled as none. -/
def routerRespond (s : State) (method path : String) : Option (Nat × String) :=
  if method = "GET" ∧ path = "/data" then some (get_count s) else none

/-- Operations available on the Serve handle of lines 94 to 106 of
src/main.rs: addr borrows the handle, shutdown takes the handle by value. -/
inductive HandleOp where
  | addr : HandleOp
  | shutdown : HandleOp
deriving DecidableEq

/-- State of one Serve handle together with its oneshot sender: alive
records whether the handle still exists (Rust move semantics destroy it
when shutdown takes self by value), signalsSent counts shutdown signals
sent on the oneshot channel. -/
structure HandleState where
  alive : Bool
  signalsSent : Nat
deriving DecidableEq

/-- Runs a sequence of handle operations under Rust ownership rules: any
use of a consumed handle is rejected (none), addr leaves the handle alive,
shutdown sends one signal on the oneshot channel and consumes the handle,
mirroring Serve::shutdown on lines 103 to 105 of src/main.rs. -/
def runHandleOps : HandleState → List HandleOp → Option HandleState
  | s, [] => some s
  | s, HandleOp.addr :: rest => if s.alive then runHandleOps s rest else none
  | s, HandleOp.shutdown :: rest =>
    if s.alive then runHandleOps ⟨false, s.signalsSent + 1⟩ rest else none

/-- The observable events of one run of the handler start, lines 24 to 77
of src/main.rs, in program order. -/
inductive Event where
  | translateReq : Event
  | buildRouter : Event
  | startServer : Event
  | dispatchCall : Event
  | respReceived : Event
  | shutdownSignal : Event
  | readBody : Event
  | decodeUtf8 : Event
  | returnOk : Event
  | returnErr : Event
  | panicEvt : Event
deriving DecidableEq

/-- The event trace of the handler start, lines 24 to 77 of src/main.rs,
as a function of the outcome of each fallible step: uriOk is the result of
Uri::from_str (line 57, panic on error), dispatchOk of the loopback client
call (line 68, unwrap), sendOk of the oneshot send inside shutdown
(line 104, unwrap), bodyReadOk of body::to_bytes (line 74, question-mark
operator returning the error), utf8Ok of String::from_utf8 (line 75,
unwrap).  The trace mirrors the statement order of the source. -/
def startTrace (uriOk dispatchOk sendOk bodyReadOk utf8Ok : Bool) : List Event :=
  Event.translateReq ::
    (if uriOk then
      Event.buildRouter :: Event.startServer :: Event.dispatchCall ::
        (if dispatchOk then
          Event.respReceived :: Event.shutdownSignal ::
            (if sendOk then
              Event.readBody ::
                (if bodyReadOk then
                  Event.decodeUtf8 ::
                    (if utf8Ok then [Event.returnOk] else [Event.panicEvt])
                else [Event.returnErr])
            else [Event.panicEvt])
        else [Event.panicEvt])
    else [Event.panicEvt])

/-- Index of the first occurrence of an event in a trace. -/
def eventIdx (e : Event) (t : List Event) : Nat := t.findIdx (fun x => decide (x = e))

/-- Hexadecimal digit value of a byte, accepting both cases, as in the
standard form-urlencoded percent decoder. -/
def hexVal (c : Nat) : Option Nat :=
  if 0x30 ≤ c ∧ c ≤ 0x39 then some (c - 0x30)
  else if 0x41 ≤ c ∧ c ≤ 0x46 then some (c - 0x41 + 10)
  else if 0x61 ≤ c ∧ c ≤ 0x66 then some (c - 0x61 + 10)
  else none

/-- Standard form-urlencoded byte decoding: plus becomes space, percent
followed by two hex digits becomes the denoted byte, malformed percent
escapes pass through, everything else passes through. -/
def formDecode : List Nat → List Nat
  | [] => []
  | b :: rest =>
    if b = 0x2B then 0x20 :: formDecode rest
    else if b = 0x25 then
      match rest with
      | h :: l :: rest2 =>
        match hexVal h, hexVal l with
        | some hv, some lv => (16 * hv + lv) :: formDecode rest2
        | _, _ => 0x25 :: formDecode (h :: l :: rest2)
      | [h] => 0x25 :: formDecode [h]
      | [] => [0x25]
    else b :: formDecode rest

/-- Split a nonempty piece of a query string at the first equals sign into
name and value; a piece without an equals sign is all name, empty value. -/
def splitEq : List Nat → List Nat × List Nat
  | [] => ([], [])
  | b :: rest =>
    if b = 0x3D then ([], rest)
    else (b :: (splitEq rest).1, (splitEq rest).2)

/-- Decode one ampersand-separated piece of a query string into a decoded
name value pair. -/
def parsePiece (p : List Nat) : List Nat × List Nat :=
  (formDecode (splitEq p).1, formDecode (splitEq p).2)

/-- Standard application/x-www-form-urlencoded parsing of a query string:
split at ampersands, drop empty pieces, split each piece at the first
equals sign, form-decode names and values. -/
def parseQuery (qs : List Nat) : List (List Nat × List Nat) :=
  if qs = [] then []
  else ((splitOnByte 0x26 qs).filter (fun p => !p.isEmpty)).map parsePiece

/-- Last element of a byte list, if any. -/
def lastByte : List Nat → Option Nat
  | [] => none
  | [b] => some b
  | _ :: b :: rest => lastByte (b :: rest)

theorem hexVal_hexDigit : ∀ n < 16, hexVal (hexDigit n) = some n := by decide

theorem hexDigit_not_special (n : Nat) :
    hexDigit n ≠ 0x25 ∧ hexDigit n ≠ 0x2B ∧ hexDigit n ≠ 0x26 ∧
    hexDigit n ≠ 0x3D ∧ hexDigit n ≠ 0x3F := by
  unfold hexDigit
  split <;> omega

theorem formSafe_not_special (b : Nat) (h : isFormSafe b = true) :
    b ≠ 0x25 ∧ b ≠ 0x2B ∧ b ≠ 0x26 ∧ b ≠ 0x3D ∧ b ≠ 0x3F ∧ b ≠ 0x20 := by
  simp only [isFormSafe, decide_eq_true_eq] at h
  rcases h with h | h | h | h | h | h | h <;> omega

theorem mem_encodeByte_not_special (b c : Nat) (hc : c ∈ encodeByte b) :
    c ≠ 0x26 ∧ c ≠ 0x3D ∧ c ≠ 0x3F := by
  unfold encodeByte at hc
  split at hc
  · next hs =>
    simp at hc
    have hb := formSafe_not_special b hs
    rw [hc]
    exact ⟨hb.2.2.1, hb.2.2.2.1, hb.2.2.2.2.1⟩
  · split at hc
    · simp at hc
      subst hc
      refine ⟨by decide, by decide, by decide⟩
    · simp at hc
      rcases hc with hc | hc | hc
      · subst hc
        refine ⟨by decide, by decide, by decide⟩
      · subst hc
        have := hexDigit_not_special (b / 16)
        exact ⟨this.2.2.1, this.2.2.2.1, this.2.2.2.2⟩
      · subst hc
        have := hexDigit_not_special (b % 16)
        exact ⟨this.2.2.1, this.2.2.2.1, this.2.2.2.2⟩

theorem mem_encodeBytes_not_special (bs : List Nat) (c : Nat) (hc : c ∈ encodeBytes bs) :
    c ≠ 0x26 ∧ c ≠ 0x3D ∧ c ≠ 0x3F := by
  induction bs with
  | nil => simp [encodeBytes] at hc
  | cons b bs ih =>
    simp only [encodeBytes, List.mem_append] at hc
    rcases hc with hc | hc
    · exact mem_encodeByte_not_special b c hc
    · exact ih hc

theorem not_mem_append_pair_sep (k v : List Nat) :
    0x26 ∉ append_pair k v ∧ 0x3F ∉ append_pair k v := by
  constructor
  · intro h
    simp only [append_pair, List.mem_append, List.mem_cons] at h
    rcases h with h | h | h
    · exact (mem_encodeBytes_not_special k _ h).1 rfl
    · exact absurd h (by decide)
    · exact (mem_encodeBytes_not_special v _ h).1 rfl
  · intro h
    simp only [append_pair, List.mem_append, List.mem_cons] at h
    rcases h with h | h | h
    · exact (mem_encodeBytes_not_special k _ h).2.2 rfl
    · exact absurd h (by decide)
    · exact (mem_encodeBytes_not_special v _ h).2.2 rfl

theorem not_mem_encodeQuery_qmark (ps : List (List Nat × List Nat)) :
    0x3F ∉ encodeQuery ps := by
  induction ps with
  | nil => simp [encodeQuery]
  | cons kv rest ih =>
    obtain ⟨k, v⟩ := kv
    intro h
    simp only [encodeQuery, List.mem_append] at h
    rcases h with h | h
    · exact (not_mem_append_pair_sep k v).2 h
    · rcases hrest : rest.isEmpty with _ | _
      · rw [hrest] at h
        simp only [if_neg Bool.false_ne_true] at h
        rcases List.mem_cons.mp h with h | h
        · exact absurd h (by decide)
        · exact ih h
      · rw [hrest] at h
        simp at h

theorem append_pair_ne_nil (k v : List Nat) : append_pair k v ≠ [] := by
  simp only [append_pair]
  intro h
  rcases List.append_eq_nil.mp h with ⟨_, h2⟩
  exact List.cons_ne_nil _ _ h2

theorem encodeQuery_ne_nil (kv : List Nat × List Nat)
    (rest : List (List Nat × List Nat)) : encodeQuery (kv :: rest) ≠ [] := by
  obtain ⟨k, v⟩ := kv
  simp only [encodeQuery]
  intro h
  rcases List.append_eq_nil.mp h with ⟨h1, _⟩
  exact append_pair_ne_nil k v h1

theorem formDecode_nil : formDecode [] = [] := rfl

theorem formDecode_cons_plus (t : List Nat) :
    formDecode (0x2B :: t) = 0x20 :: formDecode t := by
  rw [formDecode.eq_def]
  simp

theorem formDecode_cons_other (b : Nat) (t : List Nat) (h1 : b ≠ 0x2B) (h2 : b ≠ 0x25) :
    formDecode (b :: t) = b :: formDecode t := by
  rw [formDecode.eq_def]
  simp [h1, h2]

theorem formDecode_cons_pct (h l : Nat) (t : List Nat) (hv lv : Nat)
    (hh : hexVal h = some hv) (hl : hexVal l = some lv) :
    formDecode (0x25 :: h :: l :: t) = (16 * hv + lv) :: formDecode t := by
  rw [formDecode.eq_def]
  simp [hh, hl]

theorem formDecode_encodeByte (b : Nat) (hb : b < 256) (t : List Nat) :
    formDecode (encodeByte b ++ t) = b :: formDecode t := by
  unfold encodeByte
  split
  · next hs =>
    have hne := formSafe_not_special b hs
    simpa using formDecode_cons_other b t hne.2.1 hne.1
  · split
    · next h20 =>
      subst h20
      simpa using formDecode_cons_plus t
    · have hhi : hexVal (hexDigit (b / 16)) = some (b / 16) :=
        hexVal_hexDigit (b / 16) (by omega)
      have hlo : hexVal (hexDigit (b % 16)) = some (b % 16) :=
        hexVal_hexDigit (b % 16) (by omega)
      have := formDecode_cons_pct (hexDigit (b / 16)) (hexDigit (b % 16)) t
        (b / 16) (b % 16) hhi hlo
      simpa [Nat.div_add_mod] using this

theorem formDecode_encodeBytes (bs : List Nat) (hb : ∀ b ∈ bs, b < 256) (t : List Nat) :
    formDecode (encodeBytes bs ++ t) = bs ++ formDecode t := by
  induction bs with
  | nil => simp [encodeBytes]
  | cons b bs ih =>
    simp only [encodeBytes, List.append_assoc, List.cons_append]
    rw [formDecode_encodeByte b (hb b (List.mem_cons_self b bs)) (encodeBytes bs ++ t),
      ih (fun x hx => hb x (List.mem_cons_of_mem b hx))]

theorem formDecode_encodeBytes_nil (bs : List Nat) (hb : ∀ b ∈ bs, b < 256) :
    formDecode (encodeBytes bs) = bs := by
  have h := formDecode_encodeBytes bs hb []
  rwa [List.append_nil, formDecode_nil, List.append_nil] at h

theorem encodeQuery_single (k v : List Nat) :
    encodeQuery [(k, v)] = append_pair k v := by
  show append_pair k v ++ [] = append_pair k v
  exact List.append_nil _

theorem encodeQuery_cons_cons (k v : List Nat) (kv2 : List Nat × List Nat)
    (rest2 : List (List Nat × List Nat)) :
    encodeQuery ((k, v) :: kv2 :: rest2) =
      append_pair k v ++ 0x26 :: encodeQuery (kv2 :: rest2) := rfl

theorem splitOnByte_no_sep (sep : Nat) (xs : List Nat) (h : sep ∉ xs) :
    splitOnByte sep xs = [xs] := by
  induction xs with
  | nil => rfl
  | cons b xs ih =>
    have hb : b ≠ sep := fun hEq => h (by simp [hEq])
    have hrec := ih (fun hx => h (List.mem_cons_of_mem b hx))
    simp [splitOnByte, hb, hrec]

theorem splitOnByte_append (sep : Nat) (xs t : List Nat) (h : sep ∉ xs) :
    splitOnByte sep (xs ++ sep :: t) = xs :: splitOnByte sep t := by
  induction xs with
  | nil => simp [splitOnByte]
  | cons b xs ih =>
    have hb : b ≠ sep := fun hEq => h (by simp [hEq])
    have hrec := ih (fun hx => h (List.mem_cons_of_mem b hx))
    simp [splitOnByte, hb, hrec]

theorem splitEq_append (xs v : List Nat) (h : 0x3D ∉ xs) :
    splitEq (xs ++ 0x3D :: v) = (xs, v) := by
  induction xs with
  | nil => simp [splitEq]
  | cons b xs ih =>
    have hb : b ≠ 0x3D := fun hEq => h (by simp [hEq])
    have hrec := ih (fun hx => h (List.mem_cons_of_mem b hx))
    simp [splitEq, hb, hrec]

theorem parsePiece_append_pair (k v : List Nat)
    (hk : ∀ b ∈ k, b < 256) (hv : ∀ b ∈ v, b < 256) :
    parsePiece (append_pair k v) = (k, v) := by
  have hsplit : splitEq (encodeBytes k ++ 0x3D :: encodeBytes v) =
      (encodeBytes k, encodeBytes v) :=
    splitEq_append (encodeBytes k) (encodeBytes v)
      (fun hx => (mem_encodeBytes_not_special k _ hx).2.1 rfl)
  simp only [parsePiece, append_pair, hsplit]
  rw [formDecode_encodeBytes_nil k hk, formDecode_encodeBytes_nil v hv]

theorem splitOnByte_encodeQuery (ps : List (List Nat × List Nat)) (hne : ps ≠ []) :
    splitOnByte 0x26 (encodeQuery ps) =
      ps.map (fun kv => append_pair kv.1 kv.2) := by
  induction ps with
  | nil => exact absurd rfl hne
  | cons kv rest ih =>
    obtain ⟨k, v⟩ := kv
    cases rest with
    | nil =>
      rw [encodeQuery_single]
      exact splitOnByte_no_sep 0x26 (append_pair k v)
        (fun hx => (not_mem_append_pair_sep k v).1 hx)
    | cons kv2 rest2 =>
      rw [encodeQuery_cons_cons,
        splitOnByte_append 0x26 (append_pair k v) (encodeQuery (kv2 :: rest2))
          (fun hx => (not_mem_append_pair_sep k v).1 hx),
        ih (List.cons_ne_nil kv2 rest2)]
      rfl

theorem lastByte_cons_of_ne_nil (a : Nat) (t : List Nat) (h : t ≠ []) :
    lastByte (a :: t) = lastByte t := by
  cases t with
  | nil => exact absurd rfl h
  | cons b rest => rfl

theorem lastByte_append_cons (xs : List Nat) (y : Nat) (ys : List Nat) :
    lastByte (xs ++ y :: ys) = lastByte (y :: ys) := by
  induction xs with
  | nil => rfl
  | cons a xs ih =>
    rw [List.cons_append, lastByte_cons_of_ne_nil a (xs ++ y :: ys) (by simp), ih]

theorem lastByte_mem (l : List Nat) (x : Nat) (h : lastByte l = some x) : x ∈ l := by
  induction l with
  | nil => simp [lastByte] at h
  | cons a t ih =>
    cases t with
    | nil =>
      simp [lastByte] at h
      simp [h]
    | cons b rest =>
      rw [lastByte_cons_of_ne_nil a (b :: rest) (List.cons_ne_nil b rest)] at h
      exact List.mem_cons_of_mem a (ih h)

theorem no_trailing_amp (ps : List (List Nat × List Nat)) (hne : ps ≠ []) :
    lastByte (encodeQuery ps) ≠ some 0x26 := by
  induction ps with
  | nil => exact absurd rfl hne
  | cons kv rest ih =>
    obtain ⟨k, v⟩ := kv
    cases rest with
    | nil =>
      rw [encodeQuery_single]
      intro h
      exact (not_mem_append_pair_sep k v).1 (lastByte_mem _ _ h)
    | cons kv2 rest2 =>
      rw [encodeQuery_cons_cons,
        lastByte_append_cons (append_pair k v) 0x26 (encodeQuery (kv2 :: rest2)),
        lastByte_cons_of_ne_nil 0x26 (encodeQuery (kv2 :: rest2))
          (encodeQuery_ne_nil kv2 rest2)]
      exact ih (List.cons_ne_nil kv2 rest2)

theorem filter_nonempty_map (ps : List (List Nat × List Nat)) :
    (ps.map (fun kv => append_pair kv.1 kv.2)).filter (fun p => !p.isEmpty) =
      ps.map (fun kv => append_pair kv.1 kv.2) := by
  induction ps with
  | nil => rfl
  | cons kv rest ih =>
    obtain ⟨k, v⟩ := kv
    have hne : (append_pair k v).isEmpty = false := by
      rcases hap : append_pair k v with _ | ⟨a, t⟩
      · exact absurd hap (append_pair_ne_nil k v)
      · rfl
    simp only [List.map, List.filter, hne, Bool.not_false, ih]

theorem map_parsePiece_encode (ps : List (List Nat × List Nat))
    (hb : ∀ kv ∈ ps, (∀ b ∈ kv.1, b < 256) ∧ (∀ b ∈ kv.2, b < 256)) :
    (ps.map (fun kv => append_pair kv.1 kv.2)).map parsePiece = ps := by
  induction ps with
  | nil => rfl
  | cons kv rest ih =>
    obtain ⟨k, v⟩ := kv
    have hkv := hb (k, v) (List.mem_cons_self _ _)
    simp only [List.map]
    rw [parsePiece_append_pair k v hkv.1 hkv.2,
      ih (fun x hx => hb x (List.mem_cons_of_mem _ hx))]

theorem runHandleOps_signals (ops : List HandleOp) :
    ∀ (a : Bool) (k : Nat) (s' : HandleState),
      runHandleOps ⟨a, k⟩ ops = some s' →
        s'.signalsSent ≤ k + (if a then 1 else 0) := by
  induction ops with
  | nil =>
    intro a k s' h
    simp [runHandleOps] at h
    simp [← h]
  | cons op rest ih =>
    intro a k s' h
    cases op with
    | addr =>
      cases a with
      | false => simp [runHandleOps] at h
      | true =>
        simp only [runHandleOps, if_pos rfl] at h
        exact ih true k s' h
    | shutdown =>
      cases a with
      | false => simp [runHandleOps] at h
      | true =>
        simp only [runHandleOps, if_pos rfl] at h
        have hle := ih false (k + 1) s' h
        simp at hle ⊢
        omega

theorem uriPath_no_qmark (p q : List Nat) (hp : 0x3F ∉ p) :
    uriPath (p ++ 0x3F :: q) = p ∧ uriPath p = p := by
  induction p with
  | nil => simp [uriPath]
  | cons a p ih =>
    have ha : a ≠ 0x3F := by
      intro h
      exact hp (by simp [h])
    have hrec := ih (fun h => hp (List.mem_cons_of_mem _ h))
    simp [uriPath, ha, hrec.1, hrec.2]

/-- C1 (counterexample): in the successful run of the handler, the shutdown
signal on the routerify server is issued strictly before the response body
is read into memory (line 70 precedes line 74 of src/main.rs), so shutdown
is not issued only after the body has been fully read. -/
theorem shutdown_precedes_body_read :
    Event.readBody ∈ startTrace true true true true true ∧
    eventIdx Event.shutdownSignal (startTrace true true true true true) <
      eventIdx Event.readBody (startTrace true true true true true) := by decide

/-- C1 (amended): whenever the loopback call returns a response, the
orchestrator signals shutdown after the response is received but before the
response body is read into memory; the graceful-shutdown server drains the
in-flight connection. -/
theorem shutdown_after_response_before_body (u d s br ut : Bool)
    (hu : u = true) (hd : d = true) :
    eventIdx Event.respReceived (startTrace u d s br ut) <
      eventIdx Event.shutdownSignal (startTrace u d s br ut) ∧
    (Event.readBody ∈ startTrace u d s br ut →
      eventIdx Event.shutdownSignal (startTrace u d s br ut) <
        eventIdx Event.readBody (startTrace u d s br ut)) := by
  subst hu; subst hd
  revert s br ut
  decide

/-- Witness: the amended C1 ordering at the all-successful run. -/
theorem shutdown_after_response_before_body_witness :
    eventIdx Event.respReceived (startTrace true true true true true) <
      eventIdx Event.shutdownSignal (startTrace true true true true true) ∧
    (Event.readBody ∈ startTrace true true true true true →
      eventIdx Event.shutdownSignal (startTrace true true true true true) <
        eventIdx Event.readBody (startTrace true true true true true)) :=
  shutdown_after_response_before_body true true true true true rfl rfl

/-- C2 (counterexample): when the loopback dispatch fails, the handler
panics at the unwrap on line 68 of src/main.rs after the server was
started, and the shutdown signal is never issued on that server. -/
theorem dispatch_failure_skips_shutdown :
    Event.startServer ∈ startTrace true false true true true ∧
    Event.shutdownSignal ∉ startTrace true false true true true ∧
    Event.panicEvt ∈ startTrace true false true true true := by decide

/-- C2 (amended): in every run that starts the server, shutdown is signaled
if and only if the loopback dispatch succeeds; on dispatch failure the
handler terminates by panic without signaling shutdown. -/
theorem shutdown_only_on_dispatch_success (u d s br ut : Bool) (hu : u = true) :
    Event.startServer ∈ startTrace u d s br ut ∧
    (Event.shutdownSignal ∈ startTrace u d s br ut ↔ d = true) := by
  subst hu
  revert d s br ut
  decide

/-- Witness: the amended C2 statement at the all-successful run. -/
theorem shutdown_only_on_dispatch_success_witness :
    Event.startServer ∈ startTrace true true true true true ∧
    (Event.shutdownSignal ∈ startTrace true true true true true ↔ true = true) :=
  shutdown_only_on_dispatch_success true true true true true rfl

/-- C3 (counterexample): a loopback response body that is not valid UTF-8
makes the handler panic at the unwrap on line 75 of src/main.rs; no error
is returned to the caller for that invocation. -/
theorem invalid_utf8_body_panics :
    Event.panicEvt ∈ startTrace true true true true false ∧
    Event.returnErr ∉ startTrace true true true true false ∧
    Event.returnOk ∉ startTrace true true true true false := by decide

set_option synthInstance.maxSize 2000

/-- C3 (amended): failures in URI composition, loopback dispatch, shutdown
signaling, and UTF-8 body decoding all terminate the handler by panic
rather than returning an error; only a failure while reading the body
bytes is returned to the caller through the question-mark operator. -/
theorem failure_routing_in_start (u d s br ut : Bool) :
    (u = false → Event.panicEvt ∈ startTrace u d s br ut ∧
      Event.returnErr ∉ startTrace u d s br ut) ∧
    (u = true → d = false → Event.panicEvt ∈ startTrace u d s br ut ∧
      Event.returnErr ∉ startTrace u d s br ut) ∧
    (u = true → d = true → s = false → Event.panicEvt ∈ startTrace u d s br ut ∧
      Event.returnErr ∉ startTrace u d s br ut) ∧
    (u = true → d = true → s = true → br = false →
      Event.returnErr ∈ startTrace u d s br ut ∧
      Event.panicEvt ∉ startTrace u d s br ut) ∧
    (u = true → d = true → s = true → br = true → ut = false →
      Event.panicEvt ∈ startTrace u d s br ut ∧
      Event.returnErr ∉ startTrace u d s br ut) := by
  cases u <;> cases d <;> cases s <;> cases br <;> cases ut <;> decide

/-- Witness: the amended C3 statement at the run whose body read fails. -/
theorem failure_routing_in_start_witness :
    Event.returnErr ∈ startTrace true true true false true ∧
    Event.panicEvt ∉ startTrace true true true false true :=
  (failure_routing_in_start true true true false true).2.2.2.1 rfl rfl rfl rfl

/-- C4 (counterexample): the listener address of the routerify server is
the fixed literal 127.0.0.1:8080 of line 14 of src/main.rs; its port is
8080 and not 0, so the bind does not request an OS-assigned ephemeral
port. -/
theorem server_port_is_fixed_8080 :
    socketPort SERVER_ADDR = 8080 ∧ socketPort SERVER_ADDR ≠ 0 ∧
    socketHost SERVER_ADDR = strBytes "127.0.0.1" := by decide

/-- C4 (amended): for every invocation, the server binds its listener on
127.0.0.1 at the fixed port 8080, and the loopback request is routed to
that fixed address. -/
theorem bind_addr_fixed_and_routed (path : List Nat) (ps : List (List Nat × List Nat)) :
    socketHost SERVER_ADDR = strBytes "127.0.0.1" ∧
    socketPort SERVER_ADDR = 8080 ∧
    buildUri path ps = strBytes "http://127.0.0.1:8080" ++ path ++
      (if ps.isEmpty then [] else 0x3F :: encodeQuery ps) := by
  refine ⟨by decide, by decide, ?_⟩
  have h : strBytes ("http://" ++ SERVER_ADDR) = strBytes "http://127.0.0.1:8080" := by decide
  simp only [buildUri, h]

/-- C5: the request translator maps the body variants exactly: Empty gives
a zero-length byte stream, Text gives precisely the UTF-8 bytes of the
string, Binary passes the bytes through verbatim. -/
theorem body_variant_fidelity :
    (toHyperBody LambdaBody.empty).length = 0 ∧
    (∀ s : String, toHyperBody (LambdaBody.text s) = utf8Bytes s.data) ∧
    (∀ b : List Nat, toHyperBody (LambdaBody.binary b) = b) :=
  ⟨rfl, fun _ => rfl, fun _ => rfl⟩

/-- C8: a GET request to /data on the configured router yields status 200
with body exactly the text Count, a space, and the decimal rendering of
the demonstration byte stored in the router state. -/
theorem get_count_route_response (n : Nat) (h : n < 256) :
    routerRespond ⟨n⟩ "GET" "/data" = some (200, "Count: " ++ toString n) := by
  simp [routerRespond, get_count]

/-- Witness: the C8 response at demonstration byte 7. -/
theorem get_count_route_response_witness :
    routerRespond ⟨7⟩ "GET" "/data" = some (200, "Count: " ++ toString 7) :=
  get_count_route_response 7 (by decide)

/-- C9: under Rust ownership rules, shutdown consumes the Serve handle and
sends exactly one signal on the oneshot channel, so no sequence of handle
operations accepted from a fresh handle ever sends more than one shutdown
signal. -/
theorem shutdown_at_most_once (ops : List HandleOp) (s' : HandleState)
    (h : runHandleOps ⟨true, 0⟩ ops = some s') : s'.signalsSent ≤ 1 := by
  have := runHandleOps_signals ops true 0 s' h
  simpa using this

/-- Witness: C9 at the operation sequence addr then shutdown. -/
theorem shutdown_at_most_once_witness :
    (HandleState.mk false 1).signalsSent ≤ 1 :=
  shutdown_at_most_once [HandleOp.addr, HandleOp.shutdown] ⟨false, 1⟩ (by decide)

/-- C10: the outbound URI is built from the path component of the inbound
URI alone, so a query string embedded in the inbound URI is discarded and
the outbound query component comes only from the supplied mapping. -/
theorem inbound_uri_query_discarded (p q : List Nat)
    (ps : List (List Nat × List Nat)) (hp : 0x3F ∉ p) :
    outboundUri (p ++ 0x3F :: q) ps = outboundUri p ps ∧
    outboundUri p ps = buildUri p ps := by
  obtain ⟨h1, h2⟩ := uriPath_no_qmark p q hp
  constructor
  · show buildUri (uriPath (p ++ 0x3F :: q)) ps = buildUri (uriPath p) ps
    rw [h1, h2]
  · show buildUri (uriPath p) ps = buildUri p ps
    rw [h2]

/-- Witness: C10 at path /data with an embedded query x equals 1. -/
theorem inbound_uri_query_discarded_witness :
    outboundUri (strBytes "/data" ++ 0x3F :: strBytes "x=1") [] =
      outboundUri (strBytes "/data") [] ∧
    outboundUri (strBytes "/data") [] = buildUri (strBytes "/data") [] :=
  inbound_uri_query_discarded (strBytes "/data") (strBytes "x=1") [] (by decide)

/-- C6: the URI reconciler appends a single question mark only when at
least one query pair exists (an empty mapping leaves the path unchanged,
with no trailing question mark), joins the encoded pairs with ampersands,
and never produces a trailing ampersand: the built URI for a nonempty
mapping is the prefix, the path, one question mark and the encoded query;
the encoded query contains no question mark byte, splits at ampersands
into exactly the encoded pairs, and its last byte is not an ampersand. -/
theorem query_string_assembly (path : List Nat) (ps : List (List Nat × List Nat))
    (hne : ps ≠ []) :
    buildUri path [] = strBytes ("http://" ++ SERVER_ADDR) ++ path ∧
    buildUri path ps = strBytes ("http://" ++ SERVER_ADDR) ++ path ++
      0x3F :: encodeQuery ps ∧
    0x3F ∉ encodeQuery ps ∧
    splitOnByte 0x26 (encodeQuery ps) = ps.map (fun kv => append_pair kv.1 kv.2) ∧
    lastByte (encodeQuery ps) ≠ some 0x26 := by
  refine ⟨?_, ?_, not_mem_encodeQuery_qmark ps, splitOnByte_encodeQuery ps hne,
    no_trailing_amp ps hne⟩
  · simp [buildUri]
  · rcases ps with _ | ⟨kv, rest⟩
    · exact absurd rfl hne
    · simp [buildUri]

/-- Witness: C6 at path /data and the single pair a maps to 1 2. -/
theorem query_string_assembly_witness :
    buildUri (strBytes "/data") [] =
      strBytes ("http://" ++ SERVER_ADDR) ++ strBytes "/data" ∧
    buildUri (strBytes "/data") [(strBytes "a", strBytes "1 2")] =
      strBytes ("http://" ++ SERVER_ADDR) ++ strBytes "/data" ++
        0x3F :: encodeQuery [(strBytes "a", strBytes "1 2")] ∧
    0x3F ∉ encodeQuery [(strBytes "a", strBytes "1 2")] ∧
    splitOnByte 0x26 (encodeQuery [(strBytes "a", strBytes "1 2")]) =
      [(strBytes "a", strBytes "1 2")].map (fun kv => append_pair kv.1 kv.2) ∧
    lastByte (encodeQuery [(strBytes "a", strBytes "1 2")]) ≠ some 0x26 :=
  query_string_assembly (strBytes "/data") [(strBytes "a", strBytes "1 2")] (by decide)

/-- C7: for every nonempty mapping of byte-string keys to byte-string
values, serializing it with the reconciler and parsing the produced query
string back with standard application/x-www-form-urlencoded decoding
yields the original mapping exactly; exact equality in particular gives
the order-insensitive equality of the claim. -/
theorem query_encode_parse_roundtrip (ps : List (List Nat × List Nat)) (hne : ps ≠ [])
    (hb : ∀ kv ∈ ps, (∀ b ∈ kv.1, b < 256) ∧ (∀ b ∈ kv.2, b < 256)) :
    parseQuery (encodeQuery ps) = ps := by
  rcases ps with _ | ⟨kv, rest⟩
  · exact absurd rfl hne
  · unfold parseQuery
    rw [if_neg (encodeQuery_ne_nil kv rest),
      splitOnByte_encodeQuery (kv :: rest) (List.cons_ne_nil kv rest),
      filter_nonempty_map, map_parsePiece_encode (kv :: rest) hb]

/-- Witness: C7 at the two-pair mapping of the spec scenario, a maps to
the text 1 2 and b maps to the text x ampersand y. -/
theorem query_encode_parse_roundtrip_witness :
    parseQuery
        (encodeQuery [(strBytes "a", strBytes "1 2"), (strBytes "b", strBytes "x&y")]) =
      [(strBytes "a", strBytes "1 2"), (strBytes "b", strBytes "x&y")] :=
  query_encode_parse_roundtrip
    [(strBytes "a", strBytes "1 2"), (strBytes "b", strBytes "x&y")]
    (by decide) (by decide)

end RouterifyBridge
